import Mathlib

/-!
Verification model of the optimistic chat synchronization engine in
`src/src/components/chat/ChatContext.tsx` (the `ChatContextProvider`
component and the `sendMessage` mutation it configures).

The embedding is shallow: the cache-entry updater functions handed to
`setInfiniteData` are translated to pure Lean functions on a `CacheEntry`
value, and the mutation lifecycle (onMutate / mutationFn settlement /
onSuccess stream folding / onError / onSettled) is an explicit state
transformer on a `ChatState`.  A thrown JavaScript exception is modelled
by an `Option` result (`none` = the updater threw).  Timestamps
(`new Date().toISOString()`) and the generated uuid
(`crypto.randomUUID()`) are parameters.
-/

/-- A chat record, as produced by the updaters in the source
(`{createdAt, id, text, isUserMessage}`). -/
structure Message where
  id : String
  createdAt : String
  text : String
  isUserMessage : Bool
deriving DecidableEq

/-- One page of the infinite query data: its message list plus the
opaque pagination cursor the server attaches to a page. -/
structure Page where
  messages : List Message
  nextCursor : Option String
deriving DecidableEq

/-- The infinite-query cache entry (`{pages, pageParams}`). -/
structure CacheEntry where
  pages : List Page
  pageParams : List (Option String)
deriving DecidableEq

/-- Flatten an entry's pages into one record list, as the snapshot does:
`previousMessages?.pages.flatMap((page) => page.messages)`. -/
def flattenEntry (e : CacheEntry) : List Message :=
  (e.pages.map Page.messages).flatten

/-- Flatten an optional cache entry; an absent entry reads as `[]`
(the `?? []` fallback in `onMutate`). -/
def flattenCache (c : Option CacheEntry) : List Message :=
  (c.map flattenEntry).getD []

/-- The optimistic own-message record built in `onMutate` (lines 97-102). -/
def mkUserMessage (now uuid text : String) : Message :=
  { id := uuid, createdAt := now, text := text, isUserMessage := true }

/-- The updater passed to `setInfiniteData` inside `onMutate`
(source lines 83-113).  Input `none` models an absent cache entry
(the `!old` branch).  Output `none` models the thrown `TypeError`:
when `old.pages` is empty, `newPages[0]!` is `undefined` at runtime and
the assignment `latestPage.messages = ...` throws, so the updater
produces no value. -/
def onMutateUpdater (now uuid text : String) :
    Option CacheEntry → Option CacheEntry
  | none => some { pages := [], pageParams := [] }
  | some old =>
    match old.pages with
    | [] => none
    | latestPage :: restPages =>
      some { old with
        pages :=
          { latestPage with
            messages := mkUserMessage now uuid text :: latestPage.messages }
          :: restPages }

/-- Whether a record is the pending server reply (`message.id === "ai-response"`). -/
def isAi (m : Message) : Bool :=
  m.id == "ai-response"

/-- The fresh pending-response record built in `onSuccess` (lines 167-172). -/
def aiMessage (now accResponse : String) : Message :=
  { id := "ai-response", createdAt := now, text := accResponse,
    isUserMessage := false }

/-- `isAiResponseCreated` of `onSuccess` (lines 159-161): does any page
contain a record with id `"ai-response"`. -/
def containsAi (e : CacheEntry) : Bool :=
  e.pages.any (fun page => page.messages.any isAi)

/-- Body of the replacement `map` in `onSuccess` (lines 176-184): replace
the text of the pending-response record, leave every other record alone. -/
def replaceAiMsg (accResponse : String) (m : Message) : Message :=
  if isAi m then { m with text := accResponse } else m

/-- The update applied to the latest page by `onSuccess` (lines 163-190):
prepend a fresh pending record when none exists anywhere in the entry,
otherwise rewrite the pending record's text to the accumulated response. -/
def updateLatestPage (now accResponse : String) (isAiResponseCreated : Bool)
    (page : Page) : Page :=
  if !isAiResponseCreated then
    { page with messages := aiMessage now accResponse :: page.messages }
  else
    { page with messages := page.messages.map (replaceAiMsg accResponse) }

/-- The updater passed to `setInfiniteData` inside `onSuccess`
(source lines 156-195).  `old.pages.map` rewrites exactly the page for
which `page === old.pages[0]` holds; that reference equality holds
exactly for the first slot of the array (distinct slots never alias in
this program), so the map is modelled as an update of the head page.
An empty `pages` array is mapped to itself, and `!old` yields the empty
entry (line 157); this updater never throws. -/
def onSuccessUpdater (now accResponse : String) :
    Option CacheEntry → CacheEntry
  | none => { pages := [], pageParams := [] }
  | some old =>
    { old with
      pages :=
        match old.pages with
        | [] => []
        | latestPage :: restPages =>
          updateLatestPage now accResponse (containsAi old) latestPage
          :: restPages }

/-! ### Byte-stream decoding

`onSuccess` decodes each delivered chunk with `decoder.decode(value)`:
a `TextDecoder` for UTF-8 invoked *without* `{stream: true}`, so each
chunk is decoded in isolation and malformed or truncated byte sequences
become U+FFFD replacement characters (WHATWG encoding standard).  The
decoder below models that per-chunk decoding; bytes are `Nat`s < 256. -/

/-- The U+FFFD replacement character. -/
def replChar : Char := Char.ofNat 0xFFFD

/-- Decode a byte list as UTF-8 with replacement on error.  `fuel` only
bounds the recursion; every step consumes at least one byte, so any
`fuel ≥` the list's length gives the real decoding (see `utf8DecodeList`,
which passes the length). -/
def utf8DecodeAux : Nat → List Nat → List Char
  | 0, _ => []
  | _ + 1, [] => []
  | fuel + 1, b :: bs =>
    if b ≤ 0x7F then
      Char.ofNat b :: utf8DecodeAux fuel bs
    else if 0xC2 ≤ b ∧ b ≤ 0xDF then
      match bs with
      | [] => [replChar]
      | b2 :: bs2 =>
        if 0x80 ≤ b2 ∧ b2 ≤ 0xBF then
          Char.ofNat ((b - 0xC0) * 0x40 + (b2 - 0x80)) :: utf8DecodeAux fuel bs2
        else
          replChar :: utf8DecodeAux fuel bs
    else if 0xE0 ≤ b ∧ b ≤ 0xEF then
      match bs with
      | [] => [replChar]
      | b2 :: bs2 =>
        if (if b = 0xE0 then 0xA0 else 0x80) ≤ b2 ∧
            b2 ≤ (if b = 0xED then 0x9F else 0xBF) then
          match bs2 with
          | [] => [replChar]
          | b3 :: bs3 =>
            if 0x80 ≤ b3 ∧ b3 ≤ 0xBF then
              Char.ofNat ((b - 0xE0) * 0x1000 + (b2 - 0x80) * 0x40 + (b3 - 0x80))
                :: utf8DecodeAux fuel bs3
            else
              replChar :: utf8DecodeAux fuel bs2
        else
          replChar :: utf8DecodeAux fuel bs
    else if 0xF0 ≤ b ∧ b ≤ 0xF4 then
      match bs with
      | [] => [replChar]
      | b2 :: bs2 =>
        if (if b = 0xF0 then 0x90 else 0x80) ≤ b2 ∧
            b2 ≤ (if b = 0xF4 then 0x8F else 0xBF) then
          match bs2 with
          | [] => [replChar]
          | b3 :: bs3 =>
            if 0x80 ≤ b3 ∧ b3 ≤ 0xBF then
              match bs3 with
              | [] => [replChar]
              | b4 :: bs4 =>
                if 0x80 ≤ b4 ∧ b4 ≤ 0xBF then
                  Char.ofNat ((b - 0xF0) * 0x40000 + (b2 - 0x80) * 0x1000 +
                      (b3 - 0x80) * 0x40 + (b4 - 0x80)) :: utf8DecodeAux fuel bs4
                else
                  replChar :: utf8DecodeAux fuel bs3
            else
              replChar :: utf8DecodeAux fuel bs2
        else
          replChar :: utf8DecodeAux fuel bs
    else
      replChar :: utf8DecodeAux fuel bs

/-- Decode one whole chunk. -/
def utf8DecodeList (bs : List Nat) : List Char :=
  utf8DecodeAux bs.length bs

/-- Per-chunk decode as a `String` (`chuckValue` in the source). -/
def utf8Decode (bs : List Nat) : String :=
  ⟨utf8DecodeList bs⟩

/-- The accumulated response after the whole stream was folded:
`accResponse` starts at `""` and each loop turn appends the decode of
the chunk just read (source lines 144-151). -/
def streamFinalText (chunks : List (List Nat)) : String :=
  chunks.foldl (fun accResponse chunk => accResponse ++ utf8Decode chunk) ""

/-! ### Controller state and mutation lifecycle

`ChatState` collects the component state the source manipulates:
the pending input (`message` / `setMessage`), the busy flag
(`isLoading` / `setIsLoading`), the `backupMessage` ref, and the cache
entry for this conversation's fingerprint (`{fileId, limit:
INFINITE_QUERY_LIMIT}`).  The cache store itself (tRPC/react-query) is
an external collaborator; per the spec's store contract it is modelled
as the single entry this mutation touches, with `invalidate` and the
failure toast recorded as event counters.  `rollbackCount` counts runs
of the `onError` restore. -/

structure ChatState where
  message : String
  isLoading : Bool
  backupMessage : String
  cache : Option CacheEntry
  notifyCount : Nat
  rollbackCount : Nat
  invalidateCount : Nat
deriving DecidableEq

/-- How the dispatched request settles, as seen by the mutation:
the transport fails (`fetch` rejects or `!response.ok` throws), the
response has no stream body, the stream delivers all its chunks and
completes, or it delivers some chunks and then a read fails. -/
inductive Outcome where
  | transportFault : Outcome
  | noStream : Outcome
  | streamOk : List (List Nat) → Outcome
  | streamFail : List (List Nat) → Outcome
deriving DecidableEq

/-- `onError` (source lines 200-208): restore the backed-up input text
and write the snapshot back (`setData({fileId}, {messages: context?.
previousMessages ?? []})`); per the spec's rollback contract the
single-page `{messages}` shape replaces the entry's content. -/
def onErrorCB (previousMessages : List Message) (s : ChatState) : ChatState :=
  { s with
    message := s.backupMessage
    cache := some { pages := [{ messages := previousMessages, nextCursor := none }],
                    pageParams := [] }
    rollbackCount := s.rollbackCount + 1 }

/-- `onSettled` (source lines 210-216): clear the busy flag and
invalidate the fingerprint. -/
def onSettledCB (s : ChatState) : ChatState :=
  { s with isLoading := false, invalidateCount := s.invalidateCount + 1 }

/-- The stream-reading loop of `onSuccess` (lines 146-197), instrumented
with its trace: for each decoded chunk `accResponse` grows by the chunk
and the `onSuccessUpdater` fold is applied to the cache.  Returns the
list of states after each fold together with the final state. -/
def foldStatesF (now : String) : List String → String → ChatState →
    List ChatState × ChatState
  | [], _, s => ([], s)
  | chunk :: rest, accResponse, s =>
    let accResponse' := accResponse ++ chunk
    let s' := { s with cache := some (onSuccessUpdater now accResponse' s.cache) }
    let p := foldStatesF now rest accResponse' s'
    (s' :: p.1, p.2)

/-- Guard for the optimistic updater: it throws exactly on an existing
entry whose `pages` array is empty. -/
def submitOK : Option CacheEntry → Bool
  | none => true
  | some e => !e.pages.isEmpty

/-- The value of `previousMessages?.pages.flatMap((page) => page.messages)
?? []` at `onMutate`'s return (source lines 120-123).  The object
captured by `getInfiniteData()` at line 78 is flattened only *after*
`setInfiniteData` ran, and the optimistic updater assigned
`latestPage.messages = [...]` on the very page object that captured
entry references (lines 96-104) — so when an entry existed, the flatten
sees the updated pages and the snapshot includes the optimistic
own-message record.  When no entry existed, `previousMessages` is
`undefined` and the `?? []` fallback applies (the updater's `!old`
branch builds a fresh object, nothing is aliased). -/
def snapshotOf : Option CacheEntry → CacheEntry → List Message
  | none, _ => []
  | some _, updated => flattenEntry updated

/-- `onMutate` (source lines 68-124): back up and clear the input,
cancel in-flight reads (no cache effect in this model), capture the
entry (`getInfiniteData`), apply the optimistic updater, set the busy
flag, and flatten the captured — by then in-place-updated — entry into
the `previousMessages` context (see `snapshotOf`).  Returns the
intermediate states, the state handed to the rest of the lifecycle,
and that context; `none` when the optimistic updater threw. -/
def submitStates (now uuid text : String) (s0 : ChatState) :
    Option (List ChatState × ChatState × List Message) :=
  let sA := { s0 with backupMessage := text, message := "" }
  match onMutateUpdater now uuid text sA.cache with
  | none => none
  | some e =>
    let previousMessages := snapshotOf sA.cache e
    let sB := { sA with cache := some e }
    let sC := { sB with isLoading := true }
    some ([sA, sB, sC], sC, previousMessages)

/-- One whole mutation (`sendMessage({message: text})`): `onMutate`,
then — per the mutation runner's contract — `onSuccess` when the
request settled without throwing, `onError` when the request or the
`onSuccess` body threw, and `onSettled` in both cases.  A successful
stream is folded once per chunk plus a final fold for the closing read
(`done` with an `undefined` value decoding to `""`); a failing stream
folds only the chunks delivered before the failure.  Returns the full
state trace and the final state; `none` when `onMutate` threw. -/
def runChat (now uuid now2 text : String) (o : Outcome) (s0 : ChatState) :
    Option (List ChatState × ChatState) :=
  match submitStates now uuid text s0 with
  | none => none
  | some (tr1, sC, previousMessages) =>
    match o with
    | Outcome.transportFault =>
      let sE := onErrorCB previousMessages sC
      let sF := onSettledCB sE
      some (s0 :: tr1 ++ [sE, sF], sF)
    | Outcome.noStream =>
      let sD := { sC with isLoading := false }
      let sN := { sD with notifyCount := sD.notifyCount + 1 }
      let sF := onSettledCB sN
      some (s0 :: tr1 ++ [sD, sN, sF], sF)
    | Outcome.streamOk chunks =>
      let sD := { sC with isLoading := false }
      let p := foldStatesF now2 (chunks.map utf8Decode ++ [""]) "" sD
      let sF := onSettledCB p.2
      some (s0 :: tr1 ++ sD :: p.1 ++ [sF], sF)
    | Outcome.streamFail chunks =>
      let sD := { sC with isLoading := false }
      let p := foldStatesF now2 (chunks.map utf8Decode) "" sD
      let sE := onErrorCB previousMessages p.2
      let sF := onSettledCB sE
      some (s0 :: tr1 ++ sD :: p.1 ++ [sE, sF], sF)

/-! ### Observations on cache entries -/

/-- The record at position 0 of the first page, when there is one. -/
def firstRecord (c : Option CacheEntry) : Option Message :=
  c.bind fun e => e.pages.head?.bind fun p => p.messages.head?

/-- The text of the pending-response record of the first page, when
there is one. -/
def aiTextC (c : Option CacheEntry) : Option String :=
  c.bind fun e => e.pages.head?.bind fun p =>
    (p.messages.find? isAi).map Message.text

/-- Number of pending-response records in a page. -/
def aiCountP (p : Page) : Nat :=
  p.messages.countP isAi

/-- The pending-record invariant: the entry holds at most one record
with the reserved id, and only in its first page. -/
def pendingInv : Option CacheEntry → Bool
  | none => true
  | some e =>
    match e.pages with
    | [] => true
    | p0 :: rest => decide (aiCountP p0 ≤ 1) && rest.all fun p => aiCountP p == 0

/-- Does any record of the entry carry the reserved pending id. -/
def cacheNoAi : Option CacheEntry → Bool
  | none => true
  | some e => !containsAi e

/-- An entry with one page already present (what a fetched, possibly
empty conversation looks like). -/
def exEntry : CacheEntry :=
  { pages := [{ messages := [], nextCursor := none }], pageParams := [] }

/-- A concrete idle state used by the closed witness and counterexample
theorems: input `"hi"` pending, nothing busy, one fetched empty page. -/
def ex0 : ChatState :=
  { message := "hi", isLoading := false, backupMessage := ""
    cache := some exEntry
    notifyCount := 0, rollbackCount := 0, invalidateCount := 0 }

/-! ### Helper lemmas -/

/-- The stream folding loop touches nothing but the cache. -/
theorem foldStatesF_frame (now : String) (l : List String) (acc : String)
    (s : ChatState) :
    ∃ c, (foldStatesF now l acc s).2 = { s with cache := c } := by
  induction l generalizing acc s with
  | nil => exact ⟨s.cache, by cases s; rfl⟩
  | cons c cs ih =>
    obtain ⟨c', h⟩ :=
      ih (acc ++ c) { s with cache := some (onSuccessUpdater now (acc ++ c) s.cache) }
    exact ⟨c', by simpa [foldStatesF] using h⟩

/-- The optimistic updater returns a value exactly on the inputs
`submitOK` accepts. -/
theorem onMutateUpdater_isSome (now uuid text : String) (c : Option CacheEntry) :
    (onMutateUpdater now uuid text c).isSome = submitOK c := by
  cases c with
  | none => rfl
  | some e =>
    cases e with
    | mk pages pageParams =>
      cases pages with
      | nil => rfl
      | cons p rest => rfl

/-- Shape of `submitStates` when the optimistic updater succeeds. -/
theorem submitStates_some (now uuid text : String) (s0 : ChatState)
    (e : CacheEntry) (he : onMutateUpdater now uuid text s0.cache = some e) :
    submitStates now uuid text s0 =
      some ([{ s0 with backupMessage := text, message := "" },
             { s0 with backupMessage := text, message := "", cache := some e },
             { s0 with
                backupMessage := text, message := "", cache := some e
                isLoading := true }],
            { s0 with
               backupMessage := text, message := "", cache := some e
               isLoading := true },
            snapshotOf s0.cache e) := by
  simp only [submitStates]
  rw [show ({ s0 with backupMessage := text, message := "" } : ChatState).cache
        = s0.cache from rfl, he]

/-- `submitOK` yields a witness entry for the optimistic updater. -/
theorem submitOK_updater (now uuid text : String) (s0 : ChatState)
    (h : submitOK s0.cache = true) :
    ∃ e, onMutateUpdater now uuid text s0.cache = some e := by
  have := onMutateUpdater_isSome now uuid text s0.cache
  rw [h] at this
  exact Option.isSome_iff_exists.mp this

/-- Flattening the single-page entry written by the rollback gives back
exactly the snapshot records. -/
theorem flatten_restore (ctx : List Message) :
    flattenCache (some { pages := [{ messages := ctx, nextCursor := none }],
                         pageParams := [] }) = ctx := by
  simp [flattenCache, flattenEntry]

/-- Per-field corollaries of `foldStatesF_frame`. -/
theorem foldStatesF_backup (now : String) (l : List String) (acc : String)
    (s : ChatState) : (foldStatesF now l acc s).2.backupMessage = s.backupMessage := by
  obtain ⟨c, h⟩ := foldStatesF_frame now l acc s
  rw [h]

theorem foldStatesF_message (now : String) (l : List String) (acc : String)
    (s : ChatState) : (foldStatesF now l acc s).2.message = s.message := by
  obtain ⟨c, h⟩ := foldStatesF_frame now l acc s
  rw [h]

theorem foldStatesF_notify (now : String) (l : List String) (acc : String)
    (s : ChatState) : (foldStatesF now l acc s).2.notifyCount = s.notifyCount := by
  obtain ⟨c, h⟩ := foldStatesF_frame now l acc s
  rw [h]

theorem foldStatesF_rollback (now : String) (l : List String) (acc : String)
    (s : ChatState) : (foldStatesF now l acc s).2.rollbackCount = s.rollbackCount := by
  obtain ⟨c, h⟩ := foldStatesF_frame now l acc s
  rw [h]

theorem foldStatesF_invalidate (now : String) (l : List String) (acc : String)
    (s : ChatState) : (foldStatesF now l acc s).2.invalidateCount = s.invalidateCount := by
  obtain ⟨c, h⟩ := foldStatesF_frame now l acc s
  rw [h]

theorem foldStatesF_isLoading (now : String) (l : List String) (acc : String)
    (s : ChatState) : (foldStatesF now l acc s).2.isLoading = s.isLoading := by
  obtain ⟨c, h⟩ := foldStatesF_frame now l acc s
  rw [h]

/-- Snapshot membership: with a fresh uuid and no pending record at
submit time, no record of the captured snapshot carries the reserved
pending id. -/
theorem snapshot_no_ai (now uuid text : String) (s0 : ChatState) (e : CacheEntry)
    (he : onMutateUpdater now uuid text s0.cache = some e)
    (hu : (uuid == "ai-response") = false)
    (hai : ∀ m ∈ flattenCache s0.cache, m.id ≠ "ai-response") :
    ∀ m ∈ snapshotOf s0.cache e, m.id ≠ "ai-response" := by
  cases hc : s0.cache with
  | none => intro m hm; simp [snapshotOf] at hm
  | some old =>
    obtain ⟨pages, pp⟩ := old
    cases pages with
    | nil => rw [hc] at he; simp [onMutateUpdater] at he
    | cons p0 rest =>
      rw [hc] at he hai
      simp only [onMutateUpdater, Option.some.injEq] at he
      subst he
      intro m hm
      simp only [snapshotOf, flattenEntry, List.map_cons, List.flatten_cons] at hm
      rcases List.mem_append.mp hm with h1 | h2
      · rcases List.mem_cons.mp h1 with rfl | h1'
        · exact ne_of_beq_false hu
        · exact hai m (List.mem_append.mpr (Or.inl h1'))
      · exact hai m (List.mem_append.mpr (Or.inr h2))

/-- C1, counterexample: in a concrete failing run from a one-page cache
the flattened records after the rollback are `[the optimistic
own-message record]` (id `"u0"`), not the empty record set present at
mutation start — `onMutate` flattens the captured entry only after the
optimistic updater rewrote its first page in place, so the restored
snapshot still holds the optimistically inserted record, contradicting
both the flattened-equality and the no-own-record parts of the claim. -/
theorem C1_rollback_keeps_optimistic_cex :
    ((runChat "t0" "u0" "t1" "hi" (Outcome.streamFail [[72]]) ex0).map
      fun p => flattenCache p.2.cache) = some [mkUserMessage "t0" "u0" "hi"] ∧
    flattenCache ex0.cache = [] :=
  ⟨by decide, by decide⟩

/-- C1 amended: if a mutation fails after its snapshot was taken, the
pending input is restored to the submitted text and the cache entry is
replaced by the snapshot's flattened records; but because `onMutate`
flattens the captured entry only after the optimistic updater rewrote
its first page in place, that snapshot already contains the optimistic
own-message record — the restored records are exactly that record
prepended to the records present at mutation start, and only the
partial pending-response record is discarded (for a fresh uuid and no
pending record at start). -/
theorem C1_rollback_restores_amended (now uuid now2 text : String) (o : Outcome)
    (s0 : ChatState) (p0 : Page) (rest : List Page) (pp : List (Option String))
    (hc : s0.cache = some ⟨p0 :: rest, pp⟩)
    (hfail : o = Outcome.transportFault ∨ ∃ chunks, o = Outcome.streamFail chunks)
    (hu : (uuid == "ai-response") = false)
    (hai : ∀ m ∈ flattenCache s0.cache, m.id ≠ "ai-response") :
    ∃ tr fin, runChat now uuid now2 text o s0 = some (tr, fin) ∧
      fin.message = text ∧
      flattenCache fin.cache =
        mkUserMessage now uuid text :: flattenEntry ⟨p0 :: rest, pp⟩ ∧
      (∀ m ∈ flattenCache fin.cache, m.id ≠ "ai-response") := by
  have he : onMutateUpdater now uuid text s0.cache =
      some ⟨{ p0 with
        messages := mkUserMessage now uuid text :: p0.messages } :: rest, pp⟩ := by
    rw [hc]; rfl
  have hs := submitStates_some now uuid text s0 _ he
  have hsnap : snapshotOf s0.cache
      (⟨{ p0 with messages := mkUserMessage now uuid text :: p0.messages } :: rest,
        pp⟩ : CacheEntry) =
      mkUserMessage now uuid text :: flattenEntry ⟨p0 :: rest, pp⟩ := by
    rw [hc]
    simp [snapshotOf, flattenEntry]
  have hno := snapshot_no_ai now uuid text s0 _ he hu hai
  rcases hfail with h | ⟨chunks, h⟩ <;> subst h
  · simp only [runChat, hs]
    refine ⟨_, _, rfl, ?_, ?_, ?_⟩
    · simp [onErrorCB, onSettledCB]
    · simp only [onErrorCB, onSettledCB, flatten_restore]
      exact hsnap
    · simp only [onErrorCB, onSettledCB, flatten_restore]
      exact hno
  · simp only [runChat, hs]
    refine ⟨_, _, rfl, ?_, ?_, ?_⟩
    · simp [onErrorCB, onSettledCB, foldStatesF_backup]
    · simp only [onErrorCB, onSettledCB, flatten_restore]
      exact hsnap
    · simp only [onErrorCB, onSettledCB, flatten_restore]
      exact hno

/-- C9: for every settling outcome — success, missing stream body,
transport fault or stream failure — exactly one invalidate call happens,
after the terminal callbacks (`onSettled` runs last in `runChat`), and
the busy flag is false afterward. -/
theorem C9_settle_invalidates (now uuid now2 text : String) (o : Outcome)
    (s0 : ChatState) (hsub : submitOK s0.cache = true) :
    ∃ tr fin, runChat now uuid now2 text o s0 = some (tr, fin) ∧
      fin.invalidateCount = s0.invalidateCount + 1 ∧
      fin.isLoading = false := by
  obtain ⟨e, he⟩ := submitOK_updater now uuid text s0 hsub
  have hs := submitStates_some now uuid text s0 e he
  cases o with
  | transportFault =>
    simp only [runChat, hs]
    exact ⟨_, _, rfl, by simp [onErrorCB, onSettledCB], rfl⟩
  | noStream =>
    simp only [runChat, hs]
    exact ⟨_, _, rfl, by simp [onSettledCB], rfl⟩
  | streamOk chunks =>
    simp only [runChat, hs]
    exact ⟨_, _, rfl, by simp [onSettledCB, foldStatesF_invalidate], rfl⟩
  | streamFail chunks =>
    simp only [runChat, hs]
    exact ⟨_, _, rfl, by simp [onErrorCB, onSettledCB, foldStatesF_invalidate], rfl⟩

/-- Witness for the amended C1: a concrete failing stream run from a
one-page cache. -/
theorem C1_rollback_restores_amended_w :
    ∃ tr fin, runChat "t0" "u0" "t1" "hi" (Outcome.streamFail [[72]]) ex0 =
        some (tr, fin) ∧
      fin.message = "hi" ∧
      flattenCache fin.cache =
        mkUserMessage "t0" "u0" "hi" ::
          flattenEntry ⟨[{ messages := [], nextCursor := none }], []⟩ ∧
      (∀ m ∈ flattenCache fin.cache, m.id ≠ "ai-response") :=
  C1_rollback_restores_amended "t0" "u0" "t1" "hi" (Outcome.streamFail [[72]]) ex0
    { messages := [], nextCursor := none } [] [] (by decide)
    (Or.inr ⟨[[72]], rfl⟩) (by decide) (by decide)

/-- Witness for C9: a concrete successful stream run. -/
theorem C9_settle_invalidates_w :
    ∃ tr fin, runChat "t0" "u0" "t1" "hi" (Outcome.streamOk [[72]]) ex0 =
        some (tr, fin) ∧
      fin.invalidateCount = ex0.invalidateCount + 1 ∧
      fin.isLoading = false :=
  C9_settle_invalidates "t0" "u0" "t1" "hi" (Outcome.streamOk [[72]]) ex0 (by decide)

/-- C3, counterexample: a mutation whose stream read fails after one
chunk is rolled back (`rollbackCount` reaches 1), yet no notification is
emitted (`notifyCount` stays 0) — the claim's "notification emitted"
part is false, since `onError` never calls `toast`. -/
theorem C3_stream_error_no_toast_cex :
    (runChat "t0" "u0" "t1" "hi" (Outcome.streamFail [[72]]) ex0).map
      (fun p => (p.2.notifyCount, p.2.rollbackCount)) = some (0, 1) := by decide

/-- C3 amended: every transport, stream-read or decode error raised
after the response arrived is caught by the mutation runner and
converted into the failure transition — the captured snapshot is
written back (the rollback runs exactly once, and, for a fresh uuid and
no pending record at start, any partial pending-response record is
discarded), the pending input is restored, and the run settles with one
invalidation — but, unlike the claim, no notification is emitted on
that path; note the restored snapshot was flattened after the in-place
optimistic insert, so it still holds the optimistic own-message
record. -/
theorem C3_stream_error_handled_amended (now uuid now2 text : String)
    (chunks : List (List Nat)) (s0 : ChatState)
    (hsub : submitOK s0.cache = true)
    (hu : (uuid == "ai-response") = false)
    (hai : ∀ m ∈ flattenCache s0.cache, m.id ≠ "ai-response") :
    ∃ tr fin, runChat now uuid now2 text (Outcome.streamFail chunks) s0 =
        some (tr, fin) ∧
      fin.message = text ∧
      fin.rollbackCount = s0.rollbackCount + 1 ∧
      fin.notifyCount = s0.notifyCount ∧
      fin.invalidateCount = s0.invalidateCount + 1 ∧
      (∀ m ∈ flattenCache fin.cache, m.id ≠ "ai-response") := by
  obtain ⟨e, he⟩ := submitOK_updater now uuid text s0 hsub
  have hs := submitStates_some now uuid text s0 e he
  have hno := snapshot_no_ai now uuid text s0 e he hu hai
  simp only [runChat, hs]
  refine ⟨_, _, rfl, ?_, ?_, ?_, ?_, ?_⟩
  · simp [onErrorCB, onSettledCB, foldStatesF_backup]
  · simp [onErrorCB, onSettledCB, foldStatesF_rollback]
  · simp [onErrorCB, onSettledCB, foldStatesF_notify]
  · simp [onErrorCB, onSettledCB, foldStatesF_invalidate]
  · simp only [onErrorCB, onSettledCB, flatten_restore]
    exact hno

/-- Witness for the amended C3. -/
theorem C3_stream_error_handled_amended_w :
    ∃ tr fin, runChat "t0" "u0" "t1" "hi" (Outcome.streamFail [[72], [105]]) ex0 =
        some (tr, fin) ∧
      fin.message = "hi" ∧
      fin.rollbackCount = ex0.rollbackCount + 1 ∧
      fin.notifyCount = ex0.notifyCount ∧
      fin.invalidateCount = ex0.invalidateCount + 1 ∧
      (∀ m ∈ flattenCache fin.cache, m.id ≠ "ai-response") :=
  C3_stream_error_handled_amended "t0" "u0" "t1" "hi" [[72], [105]] ex0
    (by decide) (by decide) (by decide)

/-- C4, counterexample: when the request settles with no stream body,
one notification is emitted but the rollback runs zero times — not once
as the claim states — and the optimistic own-message record is still in
the cache (position 0 of the first page) when the mutation settles. -/
theorem C4_no_stream_no_rollback_cex :
    (runChat "t0" "u0" "t1" "hi" Outcome.noStream ex0).map
      (fun p => (p.2.notifyCount, p.2.rollbackCount, firstRecord p.2.cache)) =
      some (1, 0, some (mkUserMessage "t0" "u0" "hi")) := by decide

/-- C4 amended: when the response has no stream body, exactly one
notification is emitted and the mutation settles as a success: the
rollback never runs, the cache keeps the optimistically updated entry
(until the settle-time invalidation refetches), and the busy flag ends
false. -/
theorem C4_no_stream_amended (now uuid now2 text : String) (s0 : ChatState)
    (hsub : submitOK s0.cache = true) :
    ∃ tr fin, runChat now uuid now2 text Outcome.noStream s0 = some (tr, fin) ∧
      fin.notifyCount = s0.notifyCount + 1 ∧
      fin.rollbackCount = s0.rollbackCount ∧
      fin.cache = onMutateUpdater now uuid text s0.cache ∧
      fin.invalidateCount = s0.invalidateCount + 1 ∧
      fin.isLoading = false := by
  obtain ⟨e, he⟩ := submitOK_updater now uuid text s0 hsub
  have hs := submitStates_some now uuid text s0 e he
  simp only [runChat, hs]
  exact ⟨_, _, rfl, by simp [onSettledCB], by simp [onSettledCB],
    by simp [onSettledCB, he], by simp [onSettledCB], rfl⟩

/-- Witness for the amended C4. -/
theorem C4_no_stream_amended_w :
    ∃ tr fin, runChat "t0" "u0" "t1" "hi" Outcome.noStream ex0 = some (tr, fin) ∧
      fin.notifyCount = ex0.notifyCount + 1 ∧
      fin.rollbackCount = ex0.rollbackCount ∧
      fin.cache = onMutateUpdater "t0" "u0" "hi" ex0.cache ∧
      fin.invalidateCount = ex0.invalidateCount + 1 ∧
      fin.isLoading = false :=
  C4_no_stream_amended "t0" "u0" "t1" "hi" ex0 (by decide)

/-- A state like `ex0` but with no cache entry for the fingerprint. -/
def ex1 : ChatState :=
  { ex0 with cache := none }

/-- C2, counterexample: submitting on an absent cache entry leaves the
entry as `{pages: [], pageParams: []}` — there is no first page and no
record at position 0, although the claim asserts the optimistic record
is visible in that case too (the `!old` branch of the `onMutate` updater
returns the empty entry without inserting the message). -/
theorem C2_optimistic_absent_cache_cex :
    (submitStates "t0" "u0" "hi" ex1).map
      (fun p => (p.2.1.cache, firstRecord p.2.1.cache)) =
      some (some { pages := [], pageParams := [] }, none) := by decide

/-- C2 amended: immediately after submit — before any network response —
the cache entry's first page has the new own-message record (own flag
true, submitted text) at position 0, provided the entry already existed
with at least one page; on an absent entry the updater yields the empty
entry without the record, and on an entry with zero pages it throws. -/
theorem C2_optimistic_visibility_amended (now uuid text : String) (s0 : ChatState)
    (p0 : Page) (rest : List Page) (pp : List (Option String))
    (hc : s0.cache = some { pages := p0 :: rest, pageParams := pp }) :
    ∃ tr sC ctx, submitStates now uuid text s0 = some (tr, sC, ctx) ∧
      firstRecord sC.cache = some (mkUserMessage now uuid text) ∧
      (mkUserMessage now uuid text).isUserMessage = true ∧
      (mkUserMessage now uuid text).text = text := by
  have he : onMutateUpdater now uuid text s0.cache =
      some { pages :=
               { p0 with messages := mkUserMessage now uuid text :: p0.messages }
               :: rest,
             pageParams := pp } := by
    rw [hc]; rfl
  have hs := submitStates_some now uuid text s0 _ he
  exact ⟨_, _, _, hs, by simp [firstRecord], rfl, rfl⟩

/-- Witness for the amended C2. -/
theorem C2_optimistic_visibility_amended_w :
    ∃ tr sC ctx, submitStates "t0" "u0" "hi" ex0 = some (tr, sC, ctx) ∧
      firstRecord sC.cache = some (mkUserMessage "t0" "u0" "hi") ∧
      (mkUserMessage "t0" "u0" "hi").isUserMessage = true ∧
      (mkUserMessage "t0" "u0" "hi").text = "hi" :=
  C2_optimistic_visibility_amended "t0" "u0" "hi" ex0
    { messages := [], nextCursor := none } [] [] (by decide)

/-- C5, counterexample: the optimistic updater is not total — applied to
the existing empty entry `{pages: [], pageParams: []}` it throws
(`newPages[0]!` is `undefined` and `.messages` is assigned on it), while
the claim demands a defined result for every input entry. -/
theorem C5_updater_not_total_cex :
    onMutateUpdater "t0" "u0" "hi" (some { pages := [], pageParams := [] }) =
      none := by decide

/-- C5 amended: within the embedding every updater is a pure function of
the entry; the stream-fold updater is total (in particular it maps the
absent entry to the empty entry), but the optimistic updater is defined
exactly on inputs that are absent or have at least one page — it throws
on an existing entry whose pages sequence is empty (and, in the source,
it additionally mutates the first page object in place). -/
theorem C5_updater_totality_amended (now uuid text now2 accResponse : String)
    (c : Option CacheEntry) :
    ((onMutateUpdater now uuid text c).isSome = true ↔
      c = none ∨ ∃ e, c = some e ∧ e.pages ≠ []) ∧
    onSuccessUpdater now2 accResponse none = { pages := [], pageParams := [] } := by
  refine ⟨?_, rfl⟩
  cases c with
  | none => simp [onMutateUpdater]
  | some e =>
    obtain ⟨pages, pp⟩ := e
    cases pages with
    | nil => simp [onMutateUpdater]
    | cons p rest => simp [onMutateUpdater]

/-- Every state recorded by the stream folding loop keeps the busy flag
of the state the loop started from. -/
theorem foldStatesF_trace_isLoading (now : String) (l : List String) (acc : String)
    (s : ChatState) :
    ∀ st ∈ (foldStatesF now l acc s).1, st.isLoading = s.isLoading := by
  induction l generalizing acc s with
  | nil => simp [foldStatesF]
  | cons c cs ih =>
    intro st hst
    simp only [foldStatesF, List.mem_cons] at hst
    rcases hst with h | h
    · subst h; rfl
    · have := ih (acc ++ c)
        { s with cache := some (onSuccessUpdater now (acc ++ c) s.cache) } st h
      simpa using this

/-- C7, counterexample: in a concrete successful run the trace of busy
flags is true only in the state right after `onMutate` (index 3); the
two stream-fold states (indices 5 and 6, one chunk plus the closing
read) show `isLoading = false`, because `onSuccess` clears the flag
before reading the stream — the claim's "stays true throughout the
Streaming phase" is false. -/
theorem C7_busy_cleared_during_stream_cex :
    (runChat "t0" "u0" "t1" "hi" (Outcome.streamOk [[72]]) ex0).map
      (fun p => p.1.map ChatState.isLoading) =
      some [false, false, false, true, false, false, false, false] := by decide

/-- C7 amended: the busy flag is set during submit and is still true
when the request settles; it is cleared as soon as the response arrives
— before any stream increment is folded — so it is false during every
fold of the Streaming phase, and false at settle. -/
theorem C7_busy_flag_amended (now uuid now2 text : String)
    (chunks : List (List Nat)) (s0 : ChatState)
    (hsub : submitOK s0.cache = true) :
    ∃ tr1 sC ctx, submitStates now uuid text s0 = some (tr1, sC, ctx) ∧
      sC.isLoading = true ∧
      ((foldStatesF now2 (chunks.map utf8Decode ++ [""]) ""
          { sC with isLoading := false }).1.all fun s => !s.isLoading) = true ∧
      (runChat now uuid now2 text (Outcome.streamOk chunks) s0).map
        (fun p => p.2.isLoading) = some false := by
  obtain ⟨e, he⟩ := submitOK_updater now uuid text s0 hsub
  have hs := submitStates_some now uuid text s0 e he
  refine ⟨_, _, _, hs, rfl, ?_, ?_⟩
  · rw [List.all_eq_true]
    intro s hmem
    have := foldStatesF_trace_isLoading now2 (chunks.map utf8Decode ++ [""]) ""
      _ s hmem
    simp [this]
  · simp only [runChat, hs]
    simp [onSettledCB]

/-- Witness for the amended C7. -/
theorem C7_busy_flag_amended_w :
    ∃ tr1 sC ctx, submitStates "t0" "u0" "hi" ex0 = some (tr1, sC, ctx) ∧
      sC.isLoading = true ∧
      ((foldStatesF "t1" ([[72]].map utf8Decode ++ [""]) ""
          { sC with isLoading := false }).1.all fun s => !s.isLoading) = true ∧
      (runChat "t0" "u0" "t1" "hi" (Outcome.streamOk [[72]]) ex0).map
        (fun p => p.2.isLoading) = some false :=
  C7_busy_flag_amended "t0" "u0" "t1" "hi" [[72]] ex0 (by decide)

/-- `replaceAiMsg` never changes a record's id, hence never its
pending-ness. -/
theorem isAi_replaceAiMsg (accResponse : String) (m : Message) :
    isAi (replaceAiMsg accResponse m) = isAi m := by
  unfold replaceAiMsg
  split <;> rfl

/-- The replacement map leaves every non-pending record of a page
untouched. -/
theorem filter_replaceAiMsg (accResponse : String) (l : List Message) :
    (l.map (replaceAiMsg accResponse)).filter (fun m => !isAi m) =
      l.filter (fun m => !isAi m) := by
  induction l with
  | nil => rfl
  | cons m ms ih =>
    cases hm : isAi m with
    | false =>
      have hm' : replaceAiMsg accResponse m = m := by
        unfold replaceAiMsg; rw [hm]; rfl
      simp [List.filter_cons, hm, hm', ih]
    | true =>
      simp [List.filter_cons, hm, isAi_replaceAiMsg, ih]

/-- C10: a stream-increment fold applied to a non-empty entry changes
only the first page — the tail pages and the pageParams are returned
unchanged — and within the first page only the pending-response record:
when no pending record exists it is created at position 0, when one
exists the page is rewritten by the id-preserving text replacement, and
in both branches the page's other fields and its non-pending records
are exactly the previous ones. -/
theorem C10_fold_frame (now2 accResponse : String) (b : Bool) (p0 : Page)
    (rest : List Page) (pp : List (Option String)) :
    onSuccessUpdater now2 accResponse
        (some { pages := p0 :: rest, pageParams := pp }) =
      { pages := updateLatestPage now2 accResponse
          (containsAi { pages := p0 :: rest, pageParams := pp }) p0 :: rest,
        pageParams := pp } ∧
    (updateLatestPage now2 accResponse false p0).messages =
      aiMessage now2 accResponse :: p0.messages ∧
    (updateLatestPage now2 accResponse true p0).messages =
      p0.messages.map (replaceAiMsg accResponse) ∧
    (updateLatestPage now2 accResponse b p0).nextCursor = p0.nextCursor ∧
    ((updateLatestPage now2 accResponse b p0).messages.filter fun m => !isAi m) =
      p0.messages.filter (fun m => !isAi m) := by
  refine ⟨rfl, rfl, rfl, ?_, ?_⟩
  · cases b <;> rfl
  · cases b with
    | false =>
      have : isAi (aiMessage now2 accResponse) = true := rfl
      simp [updateLatestPage, List.filter_cons, this]
    | true => simpa [updateLatestPage] using filter_replaceAiMsg accResponse p0.messages

/-- A page none of whose records is pending has pending-count zero. -/
theorem aiCountP_eq_zero (p : Page) (h : p.messages.any isAi = false) :
    aiCountP p = 0 := by
  refine List.countP_eq_zero.mpr ?_
  intro m hm
  exact (List.any_eq_false.mp h) m hm

/-- The replacement map preserves the pending-count of a page. -/
theorem countP_replaceAiMsg (accResponse : String) (l : List Message) :
    (l.map (replaceAiMsg accResponse)).countP isAi = l.countP isAi := by
  induction l with
  | nil => rfl
  | cons m ms ih => simp [List.countP_cons, isAi_replaceAiMsg, ih]

/-- The optimistic insert preserves the pending-record invariant when
the generated uuid is not the reserved id. -/
theorem pendingInv_onMutateUpdater (now uuid text : String)
    (c : Option CacheEntry) (e : CacheEntry)
    (he : onMutateUpdater now uuid text c = some e)
    (hu : (uuid == "ai-response") = false)
    (hinv : pendingInv c = true) :
    pendingInv (some e) = true := by
  cases c with
  | none =>
    simp only [onMutateUpdater, Option.some.injEq] at he
    subst he; rfl
  | some old =>
    obtain ⟨pages, pp⟩ := old
    cases pages with
    | nil => simp [onMutateUpdater] at he
    | cons p0 rest =>
      simp only [onMutateUpdater, Option.some.injEq] at he
      subst he
      simp only [pendingInv] at hinv ⊢
      have hmk : isAi (mkUserMessage now uuid text) = false := by
        simp [isAi, mkUserMessage, hu]
      simpa [aiCountP, List.countP_cons, hmk] using hinv

/-- The stream-increment fold preserves the pending-record invariant. -/
theorem pendingInv_onSuccessUpdater (now2 accResponse : String)
    (c : Option CacheEntry) (hinv : pendingInv c = true) :
    pendingInv (some (onSuccessUpdater now2 accResponse c)) = true := by
  cases c with
  | none => rfl
  | some old =>
    obtain ⟨pages, pp⟩ := old
    cases pages with
    | nil => rfl
    | cons p0 rest =>
      simp only [pendingInv] at hinv
      obtain ⟨h0, hrest⟩ := Bool.and_eq_true_iff.mp hinv
      cases hca : containsAi { pages := p0 :: rest, pageParams := pp } with
      | false =>
        have hca2 := hca
        simp only [containsAi, List.any_cons] at hca2
        have hall := Bool.or_eq_false_iff.mp hca2
        simp only [onSuccessUpdater, hca, pendingInv, updateLatestPage,
          Bool.not_false, if_pos]
        have hc0 : aiCountP p0 = 0 := aiCountP_eq_zero p0 hall.1
        have hAi : isAi (aiMessage now2 accResponse) = true := rfl
        simp only [Bool.and_eq_true_iff]
        constructor
        · simp only [aiCountP, List.countP_cons, hAi, if_pos]
          have hz : p0.messages.countP isAi = 0 := hc0
          simp [hz]
        · exact hrest
      | true =>
        simp only [onSuccessUpdater, hca, pendingInv, updateLatestPage,
          Bool.not_true, if_neg, Bool.false_eq_true, not_false_iff]
        simp only [Bool.and_eq_true_iff]
        constructor
        · have := countP_replaceAiMsg accResponse p0.messages
          simpa [aiCountP, this] using h0
        · exact hrest

/-- Pages beyond the first carry no pending record, so their flattening
has pending-count zero. -/
theorem countP_flatten_rest (rest : List Page)
    (h : (rest.all fun p => aiCountP p == 0) = true) :
    ((rest.map Page.messages).flatten.countP isAi) = 0 := by
  induction rest with
  | nil => rfl
  | cons p ps ih =>
    simp only [List.all_cons, Bool.and_eq_true_iff] at h
    simp only [List.map_cons, List.flatten_cons, List.countP_append]
    rw [ih h.2]
    have : aiCountP p = 0 := by simpa using h.1
    simpa [aiCountP] using this

/-- The rollback write (one page holding the flattened snapshot)
satisfies the pending-record invariant whenever the snapshotted entry
did. -/
theorem pendingInv_restore (c : Option CacheEntry) (hinv : pendingInv c = true) :
    pendingInv (some { pages := [{ messages := flattenCache c, nextCursor := none }],
                       pageParams := [] }) = true := by
  cases c with
  | none => rfl
  | some e =>
    obtain ⟨pages, pp⟩ := e
    cases pages with
    | nil => rfl
    | cons p0 rest =>
      simp only [pendingInv] at hinv
      obtain ⟨h0, hrest⟩ := Bool.and_eq_true_iff.mp hinv
      have hgoal : (p0.messages ++ (rest.map Page.messages).flatten).countP isAi ≤ 1 := by
        rw [List.countP_append, countP_flatten_rest rest hrest]
        simpa [aiCountP] using decide_eq_true_eq.mp h0
      simpa [pendingInv, aiCountP, flattenCache, flattenEntry] using hgoal

/-- The rollback write of the captured snapshot (flattened after the
in-place optimistic insert) satisfies the pending-record invariant
whenever the optimistically updated entry did. -/
theorem pendingInv_restore2 (c : Option CacheEntry) (e : CacheEntry)
    (he : pendingInv (some e) = true) :
    pendingInv (some { pages := [{ messages := snapshotOf c e, nextCursor := none }],
                       pageParams := [] }) = true := by
  cases c with
  | none => rfl
  | some old => exact pendingInv_restore (some e) he

/-- Every state recorded by the stream folding loop, and its final
state, keep the pending-record invariant. -/
theorem foldStatesF_pendingInv (now2 : String) (l : List String) (acc : String)
    (s : ChatState) (h : pendingInv s.cache = true) :
    (∀ st ∈ (foldStatesF now2 l acc s).1, pendingInv st.cache = true) ∧
    pendingInv (foldStatesF now2 l acc s).2.cache = true := by
  induction l generalizing acc s with
  | nil => exact ⟨by simp [foldStatesF], h⟩
  | cons c cs ih =>
    have hstep : pendingInv (some (onSuccessUpdater now2 (acc ++ c) s.cache)) = true :=
      pendingInv_onSuccessUpdater now2 (acc ++ c) s.cache h
    have ihx := ih (acc ++ c)
      { s with cache := some (onSuccessUpdater now2 (acc ++ c) s.cache) } hstep
    constructor
    · intro st hst
      simp only [foldStatesF, List.mem_cons] at hst
      rcases hst with rfl | hst
      · exact hstep
      · exact ihx.1 st hst
    · simpa [foldStatesF] using ihx.2

/-- When the optimistic updater throws, `submitStates` yields nothing. -/
theorem submitStates_none (now uuid text : String) (s0 : ChatState)
    (he : onMutateUpdater now uuid text s0.cache = none) :
    submitStates now uuid text s0 = none := by
  simp only [submitStates]
  rw [show ({ s0 with backupMessage := text, message := "" } : ChatState).cache
        = s0.cache from rfl, he]

/-- C8: at every point during a mutation's lifecycle — every state of
the run's trace — the cache entry contains at most one record with the
reserved pending-response id, and when one exists it sits in the first
page (`pendingInv`), provided the entry satisfied the invariant at
submit time and the generated uuid is not the reserved id. -/
theorem C8_single_pending_invariant (now uuid now2 text : String) (o : Outcome)
    (s0 : ChatState) (tr : List ChatState) (fin : ChatState)
    (hinv : pendingInv s0.cache = true)
    (hu : (uuid == "ai-response") = false)
    (hrun : runChat now uuid now2 text o s0 = some (tr, fin)) :
    ∀ s ∈ tr, pendingInv s.cache = true := by
  cases he : onMutateUpdater now uuid text s0.cache with
  | none =>
    rw [runChat, submitStates_none now uuid text s0 he] at hrun
    exact absurd hrun (by simp)
  | some e =>
    have hs := submitStates_some now uuid text s0 e he
    have hE : pendingInv (some e) = true :=
      pendingInv_onMutateUpdater now uuid text s0.cache e he hu hinv
    simp only [runChat, hs] at hrun
    cases o with
    | transportFault =>
      simp only [Option.some.injEq, Prod.mk.injEq] at hrun
      obtain ⟨htr, -⟩ := hrun
      subst htr
      refine List.forall_mem_cons.mpr ⟨hinv, ?_⟩
      refine List.forall_mem_append.mpr ⟨?_, ?_⟩
      · exact List.forall_mem_cons.mpr ⟨hinv, List.forall_mem_cons.mpr
          ⟨hE, List.forall_mem_cons.mpr ⟨hE, by simp⟩⟩⟩
      · exact List.forall_mem_cons.mpr ⟨pendingInv_restore2 s0.cache e hE,
          List.forall_mem_cons.mpr ⟨pendingInv_restore2 s0.cache e hE, by simp⟩⟩
    | noStream =>
      simp only [Option.some.injEq, Prod.mk.injEq] at hrun
      obtain ⟨htr, -⟩ := hrun
      subst htr
      refine List.forall_mem_cons.mpr ⟨hinv, ?_⟩
      refine List.forall_mem_append.mpr ⟨?_, ?_⟩
      · exact List.forall_mem_cons.mpr ⟨hinv, List.forall_mem_cons.mpr
          ⟨hE, List.forall_mem_cons.mpr ⟨hE, by simp⟩⟩⟩
      · exact List.forall_mem_cons.mpr ⟨hE, List.forall_mem_cons.mpr
          ⟨hE, List.forall_mem_cons.mpr ⟨hE, by simp⟩⟩⟩
    | streamOk chunks =>
      simp only [Option.some.injEq, Prod.mk.injEq] at hrun
      obtain ⟨htr, -⟩ := hrun
      subst htr
      have hfold := foldStatesF_pendingInv now2 (chunks.map utf8Decode ++ [""]) ""
        { message := "", isLoading := false, backupMessage := text, cache := some e,
          notifyCount := s0.notifyCount, rollbackCount := s0.rollbackCount,
          invalidateCount := s0.invalidateCount } hE
      refine List.forall_mem_cons.mpr ⟨hinv, ?_⟩
      refine List.forall_mem_append.mpr ⟨?_, ?_⟩
      · refine List.forall_mem_append.mpr ⟨?_, ?_⟩
        · exact List.forall_mem_cons.mpr ⟨hinv, List.forall_mem_cons.mpr
            ⟨hE, List.forall_mem_cons.mpr ⟨hE, by simp⟩⟩⟩
        · refine List.forall_mem_cons.mpr ⟨?_, ?_⟩
          · exact hE
          · exact hfold.1
      · refine List.forall_mem_cons.mpr ⟨?_, by simp⟩
        exact hfold.2
    | streamFail chunks =>
      simp only [Option.some.injEq, Prod.mk.injEq] at hrun
      obtain ⟨htr, -⟩ := hrun
      subst htr
      have hfold := foldStatesF_pendingInv now2 (chunks.map utf8Decode) ""
        { message := "", isLoading := false, backupMessage := text, cache := some e,
          notifyCount := s0.notifyCount, rollbackCount := s0.rollbackCount,
          invalidateCount := s0.invalidateCount } hE
      refine List.forall_mem_cons.mpr ⟨hinv, ?_⟩
      refine List.forall_mem_append.mpr ⟨?_, ?_⟩
      · refine List.forall_mem_append.mpr ⟨?_, ?_⟩
        · exact List.forall_mem_cons.mpr ⟨hinv, List.forall_mem_cons.mpr
            ⟨hE, List.forall_mem_cons.mpr ⟨hE, by simp⟩⟩⟩
        · refine List.forall_mem_cons.mpr ⟨?_, ?_⟩
          · exact hE
          · exact hfold.1
      · refine List.forall_mem_cons.mpr ⟨?_, ?_⟩
        · exact pendingInv_restore2 s0.cache e hE
        · refine List.forall_mem_cons.mpr ⟨?_, by simp⟩
          exact pendingInv_restore2 s0.cache e hE

/-- Witness for C8: the invariant holds at every state of a concrete
two-chunk successful run. -/
theorem C8_single_pending_invariant_w :
    ∃ tr fin, runChat "t0" "u0" "t1" "hi" (Outcome.streamOk [[72], [105]]) ex0 =
        some (tr, fin) ∧ ∀ s ∈ tr, pendingInv s.cache = true := by
  have hsome : (runChat "t0" "u0" "t1" "hi" (Outcome.streamOk [[72], [105]]) ex0).isSome
      = true := by decide
  obtain ⟨p, hp⟩ := Option.isSome_iff_exists.mp hsome
  exact ⟨p.1, p.2, by rw [hp],
    C8_single_pending_invariant "t0" "u0" "t1" "hi" (Outcome.streamOk [[72], [105]])
      ex0 p.1 p.2 (by decide) (by decide) (by rw [hp])⟩

/-- Does the cache entry exist with at least one page. -/
def hasPage : Option CacheEntry → Bool
  | none => false
  | some e => !e.pages.isEmpty

/-- Does the first page hold a pending-response record. -/
def aiFirst : Option CacheEntry → Bool
  | none => false
  | some e =>
    match e.pages with
    | [] => false
    | p0 :: _ => p0.messages.any isAi

/-- The replacement map preserves which records are pending. -/
theorem any_replaceAiMsg (accResponse : String) (l : List Message) :
    (l.map (replaceAiMsg accResponse)).any isAi = l.any isAi := by
  induction l with
  | nil => rfl
  | cons m ms ih => simp [List.any_cons, isAi_replaceAiMsg, ih]

/-- After the replacement map, the first pending record of a page that
had one carries exactly the accumulated response text. -/
theorem find?_replaceAiMsg (accResponse : String) (l : List Message)
    (h : l.any isAi = true) :
    ((l.map (replaceAiMsg accResponse)).find? isAi).map Message.text =
      some accResponse := by
  induction l with
  | nil => simp at h
  | cons m ms ih =>
    cases hm : isAi m with
    | true =>
      have hrep : isAi (replaceAiMsg accResponse m) = true := by
        rw [isAi_replaceAiMsg]; exact hm
      have hval : replaceAiMsg accResponse m = { m with text := accResponse } := by
        unfold replaceAiMsg; rw [hm]; rfl
      rw [List.map_cons, List.find?_cons_of_pos _ hrep, hval]
      rfl
    | false =>
      have hrep : isAi (replaceAiMsg accResponse m) = false := by
        rw [isAi_replaceAiMsg]; exact hm
      have hms : ms.any isAi = true := by simpa [List.any_cons, hm] using h
      rw [List.map_cons, List.find?_cons_of_neg _ (by simp [hrep])]
      exact ih hms

/-- One stream fold on an entry whose first page holds a pending
record keeps it there and rewrites its text to the new accumulated
response. -/
theorem onSuccessUpdater_step (now2 accResponse : String) (c : Option CacheEntry)
    (h : aiFirst c = true) :
    aiFirst (some (onSuccessUpdater now2 accResponse c)) = true ∧
    aiTextC (some (onSuccessUpdater now2 accResponse c)) = some accResponse := by
  cases c with
  | none => simp [aiFirst] at h
  | some e =>
    obtain ⟨pages, pp⟩ := e
    cases pages with
    | nil => simp [aiFirst] at h
    | cons p0 rest =>
      have hany : p0.messages.any isAi = true := by simpa [aiFirst] using h
      have hca : containsAi ⟨p0 :: rest, pp⟩ = true := by
        simp [containsAi, List.any_cons, hany]
      constructor
      · show (updateLatestPage now2 accResponse
            (containsAi ⟨p0 :: rest, pp⟩) p0).messages.any isAi = true
        rw [hca]
        show (p0.messages.map (replaceAiMsg accResponse)).any isAi = true
        rw [any_replaceAiMsg]
        exact hany
      · show ((updateLatestPage now2 accResponse
            (containsAi ⟨p0 :: rest, pp⟩) p0).messages.find? isAi).map
              Message.text = some accResponse
        rw [hca]
        show ((p0.messages.map (replaceAiMsg accResponse)).find? isAi).map
            Message.text = some accResponse
        exact find?_replaceAiMsg accResponse p0.messages hany

/-- One stream fold on a non-empty entry with no pending record creates
the pending record at position 0 of the first page, carrying the
accumulated response. -/
theorem onSuccessUpdater_creates (now2 accResponse : String) (p0 : Page)
    (rest : List Page) (pp : List (Option String))
    (hno : containsAi ⟨p0 :: rest, pp⟩ = false) :
    aiFirst (some (onSuccessUpdater now2 accResponse (some ⟨p0 :: rest, pp⟩))) = true ∧
    aiTextC (some (onSuccessUpdater now2 accResponse (some ⟨p0 :: rest, pp⟩))) =
      some accResponse := by
  have hAi : isAi (aiMessage now2 accResponse) = true := rfl
  constructor
  · show (updateLatestPage now2 accResponse
        (containsAi ⟨p0 :: rest, pp⟩) p0).messages.any isAi = true
    rw [hno]
    show (aiMessage now2 accResponse :: p0.messages).any isAi = true
    simp [List.any_cons, hAi]
  · show ((updateLatestPage now2 accResponse
        (containsAi ⟨p0 :: rest, pp⟩) p0).messages.find? isAi).map
          Message.text = some accResponse
    rw [hno]
    show ((aiMessage now2 accResponse :: p0.messages).find? isAi).map
        Message.text = some accResponse
    rw [List.find?_cons_of_pos _ hAi]
    rfl

/-- Folding a non-empty list of decoded chunks over an entry whose
first page holds the pending record leaves its text equal to the
accumulator extended by every chunk in order. -/
theorem foldStatesF_aiText (now2 : String) (l : List String) (acc : String)
    (s : ChatState) (h : aiFirst s.cache = true) (hl : l ≠ []) :
    aiFirst (foldStatesF now2 l acc s).2.cache = true ∧
    aiTextC (foldStatesF now2 l acc s).2.cache =
      some (l.foldl (fun a c => a ++ c) acc) := by
  induction l generalizing acc s with
  | nil => exact absurd rfl hl
  | cons c cs ih =>
    have hstep := onSuccessUpdater_step now2 (acc ++ c) s.cache h
    cases hcs : cs with
    | nil =>
      subst hcs
      exact ⟨by simpa [foldStatesF] using hstep.1,
        by simpa [foldStatesF] using hstep.2⟩
    | cons c2 cs2 =>
      subst hcs
      have ihx := ih (acc ++ c)
        { s with cache := some (onSuccessUpdater now2 (acc ++ c) s.cache) }
        (by simpa using hstep.1) (by simp)
      exact ⟨by simpa [foldStatesF] using ihx.1,
        by simpa [foldStatesF] using ihx.2⟩

/-- Starting instead from a non-empty entry with no pending record, the
first fold creates the record and the rest accumulate into it. -/
theorem foldStatesF_aiText_create (now2 : String) (l : List String) (acc : String)
    (s : ChatState) (p0 : Page) (rest : List Page) (pp : List (Option String))
    (hc : s.cache = some ⟨p0 :: rest, pp⟩)
    (hno : containsAi ⟨p0 :: rest, pp⟩ = false)
    (hl : l ≠ []) :
    aiTextC (foldStatesF now2 l acc s).2.cache =
      some (l.foldl (fun a c => a ++ c) acc) := by
  cases l with
  | nil => exact absurd rfl hl
  | cons c cs =>
    have hcr := onSuccessUpdater_creates now2 (acc ++ c) p0 rest pp hno
    cases cs with
    | nil =>
      have : aiTextC (some (onSuccessUpdater now2 (acc ++ c) s.cache)) =
          some (acc ++ c) := by rw [hc]; exact hcr.2
      simpa [foldStatesF] using this
    | cons c2 cs2 =>
      have h1 : aiFirst ({ s with
          cache := some (onSuccessUpdater now2 (acc ++ c) s.cache) } :
            ChatState).cache = true := by
        show aiFirst (some (onSuccessUpdater now2 (acc ++ c) s.cache)) = true
        rw [hc]; exact hcr.1
      have hrec := foldStatesF_aiText now2 (c2 :: cs2) (acc ++ c) _ h1 (by simp)
      simpa [foldStatesF] using hrec.2

/-- The optimistic insert does not introduce a pending record when the
uuid is fresh. -/
theorem containsAi_optimistic (now uuid text : String) (p0 : Page)
    (rest : List Page) (pp : List (Option String))
    (hu : (uuid == "ai-response") = false)
    (hno : containsAi ⟨p0 :: rest, pp⟩ = false) :
    containsAi ⟨{ p0 with
        messages := mkUserMessage now uuid text :: p0.messages } :: rest, pp⟩ =
      false := by
  simp only [containsAi, List.any_cons] at hno ⊢
  obtain ⟨h1, h2⟩ := Bool.or_eq_false_iff.mp hno
  simp [List.any_cons, isAi, mkUserMessage, hu, h1, h2]

/-- The loop's accumulated text (per-chunk decodes plus the closing
empty read, folded in order) is `streamFinalText`. -/
theorem streamFinalText_eq (chunks : List (List Nat)) :
    (chunks.map utf8Decode ++ [""]).foldl (fun a c => a ++ c) "" =
      streamFinalText chunks := by
  rw [List.foldl_append]
  simp only [List.foldl_cons, List.foldl_nil]
  rw [String.append_empty, List.foldl_map]
  rfl

/-- C6, counterexample: the stream delivers the two bytes of `"é"`
(0xC3 0xA9).  Delivered as one chunk the folded pending-response text is
`"é"`; split into two adjacent one-byte chunks with the same total bytes
it is two replacement characters, because each chunk is decoded by a
non-streaming `TextDecoder.decode` call — so splitting an increment does
not preserve the final text, contradicting the claim. -/
theorem C6_chunk_split_cex :
    ((runChat "t0" "u0" "t1" "hi" (Outcome.streamOk [[0xC3, 0xA9]]) ex0).bind
        fun p => aiTextC p.2.cache) = some "é" ∧
    ((runChat "t0" "u0" "t1" "hi" (Outcome.streamOk [[0xC3], [0xA9]]) ex0).bind
        fun p => aiTextC p.2.cache) = some "��" ∧
    ("é" : String) ≠ "��" := by
  exact ⟨by decide, by decide, by decide⟩

/-- C6 amended: after folding all increments the pending-response
record's text equals the in-order concatenation of the *per-chunk
decodings* of `c1..cn` (each chunk decoded in isolation), and splitting
one increment into two adjacent increments preserves the final text
exactly when the two parts' decodings concatenate to the whole's
decoding (true for splits at UTF-8 character boundaries, false inside a
multi-byte character). -/
theorem C6_stream_concat_amended (now uuid now2 text : String)
    (chunks : List (List Nat)) (s0 : ChatState)
    (hpage : hasPage s0.cache = true)
    (hno : cacheNoAi s0.cache = true)
    (hu : (uuid == "ai-response") = false) :
    (∃ tr fin, runChat now uuid now2 text (Outcome.streamOk chunks) s0 =
        some (tr, fin) ∧
      aiTextC fin.cache = some (streamFinalText chunks)) ∧
    (∀ pre post : List (List Nat), ∀ a b cc : List Nat,
      utf8Decode cc = utf8Decode a ++ utf8Decode b →
      streamFinalText (pre ++ a :: b :: post) =
        streamFinalText (pre ++ cc :: post)) := by
  constructor
  · cases hc : s0.cache with
    | none => rw [hc] at hpage; exact absurd hpage (by simp [hasPage])
    | some e0 =>
      obtain ⟨pages0, pp0⟩ := e0
      cases pages0 with
      | nil =>
        rw [hc] at hpage
        exact absurd hpage (by simp [hasPage, List.isEmpty])
      | cons p0 rest =>
        have hnoC : containsAi ⟨p0 :: rest, pp0⟩ = false := by
          rw [hc] at hno
          simpa [cacheNoAi] using hno
        have he : onMutateUpdater now uuid text s0.cache =
            some ⟨{ p0 with
              messages := mkUserMessage now uuid text :: p0.messages } :: rest,
              pp0⟩ := by
          rw [hc]; rfl
        have hnoE := containsAi_optimistic now uuid text p0 rest pp0 hu hnoC
        have hs := submitStates_some now uuid text s0 _ he
        simp only [runChat, hs]
        refine ⟨_, _, rfl, ?_⟩
        simp only [onSettledCB]
        rw [foldStatesF_aiText_create now2 (chunks.map utf8Decode ++ [""]) "" _
          ({ p0 with messages := mkUserMessage now uuid text :: p0.messages })
          rest pp0 rfl hnoE (by simp)]
        rw [streamFinalText_eq]
  · intro pre post a b cc hsplit
    simp only [streamFinalText, List.foldl_append, List.foldl_cons]
    congr 1
    rw [hsplit, ← String.append_assoc]

/-- Witness for the amended C6: chunks `"H"`, `"i"` fold to `"Hi"`, and
splitting `"Hi"`'s bytes at the character boundary keeps the final
text. -/
theorem C6_stream_concat_amended_w :
    (∃ tr fin, runChat "t0" "u0" "t1" "hi" (Outcome.streamOk [[72], [105]]) ex0 =
        some (tr, fin) ∧
      aiTextC fin.cache = some (streamFinalText [[72], [105]])) ∧
    streamFinalText ([] ++ [72] :: [105] :: []) =
      streamFinalText ([] ++ [72, 105] :: []) :=
  ⟨(C6_stream_concat_amended "t0" "u0" "t1" "hi" [[72], [105]] ex0 (by decide)
      (by decide) (by decide)).1,
   (C6_stream_concat_amended "t0" "u0" "t1" "hi" [[72], [105]] ex0 (by decide)
      (by decide) (by decide)).2 [] [] [72] [105] [72, 105] (by decide)⟩
